import Mathlib

/-!
Verification development for the Translation Cache Layer (TCL) and Language
Detection Engine (LDE) of the To-fu repository.

The C and TypeScript sources are shallowly embedded: C strings become lists of
byte values (`List Nat`, each < 256) or Lean `String`s where only identity
matters, machine integers become `Nat` with explicit wrap-around (`% 2^32`,
`% 2^64`) where the source relies on unsigned arithmetic, and the global
mutable state of the C modules becomes an explicit state record threaded
through the operations.  Floating point quantities (confidence scores,
average response times) are modelled over `ℚ`.
-/

namespace Tofu

/-! ## Byte-level C character helpers (ctype.h, default locale) -/

/-- Model of C `isspace` in the default locale: space, \t, \n, \v, \f, \r. -/
def c_isspace (b : Nat) : Bool :=
  b == 32 || b == 9 || b == 10 || b == 11 || b == 12 || b == 13

/-- Model of C `tolower` in the default locale: maps ASCII A-Z to a-z and
leaves every other byte unchanged. -/
def c_tolower (b : Nat) : Nat :=
  if 65 ≤ b ∧ b ≤ 90 then b + 32 else b

/-! ## Unsigned wrap-around subtraction -/

/-- Wrapping subtraction of `b` from `a` at width `w` bits, as computed by C
unsigned arithmetic (`a - b` on `uintW_t`).  For `b ≤ a < 2^w` this equals
`a - b`. -/
def uwsub (w a b : Nat) : Nat :=
  (a + (2 ^ w - b % 2 ^ w)) % 2 ^ w

/-- C `uint64_t` subtraction `a - b`. -/
def usub64 (a b : Nat) : Nat := uwsub 64 a b

/-- C `uint32_t` subtraction `a - b`. -/
def usub32 (a b : Nat) : Nat := uwsub 32 a b

theorem usub64_of_le (a b : Nat) (hba : b ≤ a) (ha : a < 2 ^ 64) :
    usub64 a b = a - b := by
  have hb : b % 2 ^ 64 = b := Nat.mod_eq_of_lt (lt_of_le_of_lt hba ha)
  simp only [usub64, uwsub, hb]
  have h1 : a + (2 ^ 64 - b) = (a - b) + 2 ^ 64 := by omega
  rw [h1, Nat.add_mod_right, Nat.mod_eq_of_lt (by omega)]

theorem usub32_of_le (a b : Nat) (hba : b ≤ a) (ha : a < 2 ^ 32) :
    usub32 a b = a - b := by
  have hb : b % 2 ^ 32 = b := Nat.mod_eq_of_lt (lt_of_le_of_lt hba ha)
  simp only [usub32, uwsub, hb]
  have h1 : a + (2 ^ 32 - b) = (a - b) + 2 ^ 32 := by omega
  rw [h1, Nat.add_mod_right, Nat.mod_eq_of_lt (by omega)]

/-! ## Status codes (translation_cache_layer.h)

`TCL_STATUS_ERROR_NOT_IMPLEMENTED` is referenced by tcl_key_generator.c; it
belongs to the phase-1 variant of the status enum. -/

inductive tcl_status where
  | ok
  | error_invalid_param
  | error_memory
  | error_not_found
  | error_already_exists
  | error_not_initialized
  | error_already_initialized
  | error_network
  | error_timeout
  | error_internal
  | error_redis
  | error_storage
  | error_invalid_format
  | error_io
  | error_full
  | error_empty
  | error_not_implemented
  deriving DecidableEq, Repr

/-! ## Key generation (tcl_key_generator.h / tcl_key_generator.c) -/

def TCL_KEY_MAX_LENGTH : Nat := 256

inductive tcl_key_method where
  | fnv1a
  | murmur3
  | custom
  deriving DecidableEq, Repr

structure tcl_key_config where
  method : tcl_key_method
  seed : Nat
  normalize_text : Bool
  include_timestamp : Bool
  deriving DecidableEq, Repr

def FNV_PRIME : Nat := 16777619
def FNV_OFFSET_BASIS : Nat := 2166136261

/-- Embeds `generate_fnv1a_hash` of tcl_key_generator.c: 32-bit FNV-1a over
the bytes of the text. -/
def generate_fnv1a_hash (text : List Nat) : Nat :=
  text.foldl (fun h b => ((Nat.xor h b) * FNV_PRIME) % 2 ^ 32) FNV_OFFSET_BASIS

/-- Worker for `normalize_text`: `j` counts the bytes already emitted; the C
loop stops when the 256-byte output buffer has room only for the
terminator (`j < output_size - 1` with `output_size = 256`). -/
def normalize_text_go : Nat → List Nat → List Nat
  | _, [] => []
  | j, b :: rest =>
    if j < 255 then
      if c_isspace b then normalize_text_go j rest
      else c_tolower b :: normalize_text_go (j + 1) rest
    else []

/-- Embeds `normalize_text` of tcl_key_generator.c: drops every whitespace
byte and lower-cases the rest, into a 256-byte buffer. -/
def normalize_text (input : List Nat) : List Nat :=
  normalize_text_go 0 input

/-- Lowercase hexadecimal rendering of a 32-bit value, zero-padded to eight
digits, as produced by the `%08x` conversion in tcl_key_generator.c. -/
def hex8 (n : Nat) : String :=
  let s := Nat.toDigits 16 (n % 2 ^ 32)
  String.mk (List.replicate (8 - s.length) '0' ++ s)

/-- Embeds `tcl_key_generate` of tcl_key_generator.c.  `source_text` is the
byte string to fingerprint; `source_lang` and `target_lang` are taken as
ASCII strings so `String.length` matches C `strlen`.  Returns the status
together with the generated key when successful. -/
def tcl_key_generate (cfg : tcl_key_config) (now : Nat) (source_text : List Nat)
    (source_lang target_lang : String) (buffer_size : Nat) :
    tcl_status × Option String :=
  let text_to_hash := if cfg.normalize_text then normalize_text source_text else source_text
  match cfg.method with
  | .fnv1a =>
    let hash := generate_fnv1a_hash text_to_hash
    let key :=
      if cfg.include_timestamp then
        source_lang ++ ":" ++ target_lang ++ ":" ++ hex8 hash ++ ":" ++ toString now
      else
        source_lang ++ ":" ++ target_lang ++ ":" ++ hex8 hash
    if key.length < buffer_size then (.ok, some key) else (.error_invalid_param, none)
  | .murmur3 => (.error_not_implemented, none)
  | .custom => (.error_not_implemented, none)

/-- The normalization described by the specification's fingerprint section:
strip leading and trailing whitespace, collapse every internal run of
whitespace to a single space (byte 32), and lower-case.  Used only to compare
the spec's wording against the code's `normalize_text`. -/
def claim_normalize (input : List Nat) : List Nat :=
  let words := (input.splitOnP (fun b => c_isspace b)).filter (fun w => ¬ w.isEmpty)
  (List.intercalate [32] words).map c_tolower

/-! ## Phase-1 cache data model (translation_cache_layer.c, tcl_state.c,
tcl_entry_manager.c)

The phase-1 `tcl_entry_t` carries the source text, language pair, translation
and a metadata block; the variant header that declares it is not part of the
snapshot, so the record below is reconstructed from the accesses made by
translation_cache_layer.c and tcl_entry_manager.c.  A freed slot
(`tcl_free_entry` ends with `memset(entry, 0, ...)`) is `zero_entry`. -/

structure tcl_metadata where
  usage_count : Nat
  last_used : Nat
  context : Option String
  deriving DecidableEq, Repr

structure tcl_entry where
  source_text : List Nat
  source_lang : String
  target_lang : String
  translation : String
  timestamp : Nat
  ttl : Nat
  metadata : tcl_metadata
  deriving DecidableEq, Repr

def zero_entry : tcl_entry :=
  { source_text := [], source_lang := "", target_lang := "", translation := ""
    timestamp := 0, ttl := 0
    metadata := { usage_count := 0, last_used := 0, context := none } }

instance : Inhabited tcl_entry := ⟨zero_entry⟩

/-- Cache statistics (tcl_stats_t as used by tcl_state.c).  The numeric type
of the running averages is not in the snapshot; they are modelled over `ℚ`. -/
structure tcl_stats where
  hits : Nat
  misses : Nat
  evictions : Nat
  avg_hit_time_ms : ℚ
  avg_miss_time_ms : ℚ
  deriving DecidableEq, Repr

def zero_stats : tcl_stats :=
  { hits := 0, misses := 0, evictions := 0, avg_hit_time_ms := 0, avg_miss_time_ms := 0 }

structure tcl_config where
  max_entries : Nat
  default_ttl_ms : Nat
  deriving DecidableEq, Repr

inductive tcl_eviction_policy where
  | lru
  | lfu
  | fifo
  | random
  deriving DecidableEq, Repr

/-- Entry manager configuration (tcl_entry_manager.h). -/
structure tcl_entry_manager_config where
  policy : tcl_eviction_policy
  eviction_batch_size : Nat
  min_free_entries : Nat
  auto_extend_ttl : Bool
  ttl_extension_ms : Nat
  deriving DecidableEq, Repr

/-- Combined program state: the `tcl_state` global of tcl_state.c together
with the static configuration blocks of tcl_entry_manager.c and
tcl_key_generator.c.  The entries array of capacity `max_entries` with live
length `entry_count` is modelled as the list of its first `entry_count`
slots, so `entries.length` is `entry_count`. -/
structure tcl_state_t where
  inited : Bool
  config : tcl_config
  em_config : tcl_entry_manager_config
  key_config : tcl_key_config
  stats : tcl_stats
  entries : List tcl_entry

/-- Modelled from the spec: `TCL_DEFAULT_MAX_ENTRIES` and
`TCL_DEFAULT_TTL_MS` come from the phase-1 header that is missing from the
snapshot; only their positivity matters to the theorems below. -/
def TCL_DEFAULT_MAX_ENTRIES : Nat := 1000

def TCL_DEFAULT_TTL_MS : Nat := 3600000

/-- Embeds `tcl_init` of translation_cache_layer.c (with the entry-manager
and key-generator configurations installed alongside, as their own init
functions do): zeroed statistics, empty entry array, defaults substituted
for zero configuration values. -/
def tcl_init (config : tcl_config) (em : tcl_entry_manager_config)
    (kc : tcl_key_config) : tcl_state_t :=
  { inited := true
    config :=
      { max_entries :=
          if config.max_entries = 0 then TCL_DEFAULT_MAX_ENTRIES else config.max_entries
        default_ttl_ms :=
          if config.default_ttl_ms = 0 then TCL_DEFAULT_TTL_MS else config.default_ttl_ms }
    em_config := em
    key_config := kc
    stats := zero_stats
    entries := [] }

/-- Embeds `tcl_state_update_stats` of tcl_state.c. -/
def tcl_state_update_stats (is_hit : Bool) (operation_time : Nat)
    (s : tcl_stats) : tcl_stats :=
  if is_hit then
    let hits := s.hits + 1
    { s with
      hits := hits
      avg_hit_time_ms :=
        if hits > 1 then
          (s.avg_hit_time_ms * (hits - 1 : Nat) + (operation_time : ℚ)) / (hits : ℚ)
        else (operation_time : ℚ) }
  else
    let misses := s.misses + 1
    { s with
      misses := misses
      avg_miss_time_ms :=
        if misses > 1 then
          (s.avg_miss_time_ms * (misses - 1 : Nat) + (operation_time : ℚ)) / (misses : ℚ)
        else (operation_time : ℚ) }

/-- The fingerprint of a stored entry, regenerated from its fields with the
process key configuration. -/
def entry_key (kc : tcl_key_config) (now : Nat) (e : tcl_entry) : Option String :=
  (tcl_key_generate kc now e.source_text e.source_lang e.target_lang TCL_KEY_MAX_LENGTH).2

/-- Worker for `tcl_find_entry`, scanning slots from index `i`. -/
def tcl_find_entry_go (kc : tcl_key_config) (now : Nat) (key : String) :
    Nat → List tcl_entry → Option (Nat × tcl_entry)
  | _, [] => none
  | i, e :: rest =>
    if entry_key kc now e = some key then some (i, e)
    else tcl_find_entry_go kc now key (i + 1) rest

/-- Modelled from the spec: `tcl_find_entry` is declared in tcl_state.h but
its body is not in the snapshot.  The spec's entry-store contract is
`find(key) → Entry | NotFound`; it is modelled as the first stored slot whose
regenerated fingerprint equals the requested key, returning the slot index
and its contents. -/
def tcl_find_entry (kc : tcl_key_config) (now : Nat) (key : String)
    (entries : List tcl_entry) : Option (Nat × tcl_entry) :=
  tcl_find_entry_go kc now key 0 entries

/-- Embeds `tcl_get` of translation_cache_layer.c.  The two
`tcl_get_time_ms()` calls of one invocation are identified, so the measured
operation time is 0.  On an expired entry the slot is freed in place
(`tcl_free_entry`, i.e. zeroed) and the function reports a miss; on a live
hit the slot's usage count and last-used time are updated. -/
def tcl_get (now : Nat) (source_text : List Nat) (source_lang target_lang : String)
    (s : tcl_state_t) : tcl_status × tcl_state_t :=
  if ¬ s.inited then (.error_not_initialized, s)
  else if source_lang.isEmpty || target_lang.isEmpty then (.error_invalid_param, s)
  else
    match tcl_key_generate s.key_config now source_text source_lang target_lang
        TCL_KEY_MAX_LENGTH with
    | (.ok, some key) =>
      match tcl_find_entry s.key_config now key s.entries with
      | some (i, e) =>
        if usub64 now e.timestamp > e.ttl then
          (.error_not_found,
            { s with
              entries := s.entries.set i zero_entry
              stats := tcl_state_update_stats false 0 s.stats })
        else
          (.ok,
            { s with
              entries := s.entries.set i
                { e with metadata :=
                  { e.metadata with
                    usage_count := e.metadata.usage_count + 1
                    last_used := now } }
              stats := tcl_state_update_stats true 0 s.stats })
      | none =>
        (.error_not_found, { s with stats := tcl_state_update_stats false 0 s.stats })
    | (st, _) => (st, s)

/-! ## Eviction (tcl_entry_manager.c)

The four `evict_*_entries` loops share one shape: find a victim index by a
linear scan with a sentinel-initialised running minimum, free the victim,
move the last live slot into its place (`memmove`) unless the victim is
already last, then decrement the count and bump the eviction counter.  The
scan and the swap-removal are factored out; each policy supplies the scanned
measure (or, for the random policy, the `rand()`-derived index). -/

def UINT64_MAX : Nat := 2 ^ 64 - 1
def UINT32_MAX : Nat := 2 ^ 32 - 1

/-- The victim scan of the eviction loops: walk the live slots, keeping the
first index whose measure is strictly below everything seen so far, starting
from the sentinel value. -/
def scan_min_go (f : tcl_entry → Nat) :
    List tcl_entry → Nat → Nat → Nat → Nat
  | [], _, best_idx, _ => best_idx
  | e :: rest, j, best_idx, best_val =>
    if f e < best_val then scan_min_go f rest (j + 1) j (f e)
    else scan_min_go f rest (j + 1) best_idx best_val

def scan_min_idx (f : tcl_entry → Nat) (sentinel : Nat) (l : List tcl_entry) : Nat :=
  scan_min_go f l 0 0 sentinel

/-- Removal step shared by the eviction loops and `tcl_entry_clear_expired`:
if the victim is not the last live slot, the last slot is moved onto it; the
count then drops by one. -/
def remove_swap (i : Nat) (l : List tcl_entry) : List tcl_entry :=
  if i < l.length - 1 then (l.set i (l.getLastD zero_entry)).dropLast
  else l.dropLast

/-- Victim selection per policy for one iteration of the eviction loop.
`r` is the `rand()` value consumed by the random policy. -/
def pick_victim_idx (policy : tcl_eviction_policy) (r : Nat)
    (l : List tcl_entry) : Nat :=
  match policy with
  | .lru => scan_min_idx (fun e => e.metadata.last_used) UINT64_MAX l
  | .lfu => scan_min_idx (fun e => e.metadata.usage_count) UINT32_MAX l
  | .fifo => scan_min_idx (fun e => e.timestamp) UINT64_MAX l
  | .random => r % l.length

/-- The body of `evict_lru_entries` / `evict_lfu_entries` /
`evict_fifo_entries` / `evict_random_entries`: up to `n` iterations, each
removing one victim while any live entry remains.  `i` indexes the
`rand()` stream `rnd`.  Returns the surviving entries and the number of
victims removed (each of which increments `stats.evictions`). -/
def evict_loop (policy : tcl_eviction_policy) (rnd : Nat → Nat) :
    Nat → Nat → List tcl_entry → List tcl_entry × Nat
  | 0, _, l => (l, 0)
  | n + 1, i, l =>
    if l.isEmpty then (l, 0)
    else
      let l' := remove_swap (pick_victim_idx policy (rnd i) l) l
      let res := evict_loop policy rnd n (i + 1) l'
      (res.1, res.2 + 1)

/-- Embeds `tcl_entry_evict` of tcl_entry_manager.c (the entry manager is
taken as initialised, and the policy enum is total, so the invalid-policy
branch is unreachable). -/
def tcl_entry_evict (count : Nat) (rnd : Nat → Nat) (s : tcl_state_t) :
    tcl_status × tcl_state_t :=
  if count = 0 then (.ok, s)
  else
    let res := evict_loop s.em_config.policy rnd count 0 s.entries
    (.ok,
      { s with
        entries := res.1
        stats := { s.stats with evictions := s.stats.evictions + res.2 } })

/-- Embeds `tcl_entry_get_count` of tcl_entry_manager.c. -/
def tcl_entry_get_count (s : tcl_state_t) : Nat := s.entries.length

/-- Embeds `tcl_entry_get_free_space` of tcl_entry_manager.c
(`max_entries - entry_count` on `uint32_t`). -/
def tcl_entry_get_free_space (s : tcl_state_t) : Nat :=
  usub32 s.config.max_entries s.entries.length

/-- Embeds `tcl_entry_get_usage_percent` of tcl_entry_manager.c, over `ℚ`. -/
def tcl_entry_get_usage_percent (s : tcl_state_t) : ℚ :=
  (s.entries.length : ℚ) * 100 / (s.config.max_entries : ℚ)

/-- Embeds `tcl_entry_add` of tcl_entry_manager.c: evict a batch when no
slot is free, then copy the entry into the next slot, stamping creation
time, usage count 1 and last-used time (`tcl_copy_entry` is modelled as a
value copy). -/
def tcl_entry_add (now : Nat) (e : tcl_entry) (rnd : Nat → Nat)
    (s : tcl_state_t) : tcl_status × tcl_state_t :=
  if ¬ s.inited then (.error_not_initialized, s)
  else
    let evres :=
      if tcl_entry_get_free_space s < 1 then
        tcl_entry_evict s.em_config.eviction_batch_size rnd s
      else (.ok, s)
    if evres.1 ≠ .ok then evres
    else
      let s1 := evres.2
      let newe :=
        { e with
          timestamp := now
          metadata := { e.metadata with usage_count := 1, last_used := now } }
      (.ok, { s1 with entries := s1.entries ++ [newe] })

/-- Modelled from the spec: `tcl_evict_entries`, called by `tcl_set` of
translation_cache_layer.c, has no body in the snapshot; the spec (§4.2/§4.3)
says insertion under pressure invokes the configured eviction policy, which
is what `tcl_entry_evict` implements, so the call is routed there. -/
def tcl_evict_entries (count : Nat) (rnd : Nat → Nat) (s : tcl_state_t) :
    tcl_status × tcl_state_t :=
  tcl_entry_evict count rnd s

/-- Embeds `tcl_set` of translation_cache_layer.c: evict one victim when at
capacity, then append a new entry; a zero TTL selects the configured
default. -/
def tcl_set (now : Nat) (source_text : List Nat)
    (source_lang target_lang translation : String)
    (metadata : Option tcl_metadata) (ttl : Nat) (rnd : Nat → Nat)
    (s : tcl_state_t) : tcl_status × tcl_state_t :=
  if ¬ s.inited then (.error_not_initialized, s)
  else if source_lang.isEmpty || target_lang.isEmpty then (.error_invalid_param, s)
  else
    let evres :=
      if s.entries.length ≥ s.config.max_entries then tcl_evict_entries 1 rnd s
      else (.ok, s)
    if evres.1 ≠ .ok then evres
    else
      let s1 := evres.2
      let md :=
        match metadata with
        | some m => m
        | none => { usage_count := 1, last_used := now, context := none }
      let e : tcl_entry :=
        { source_text := source_text, source_lang := source_lang
          target_lang := target_lang, translation := translation
          timestamp := now
          ttl := if ttl ≠ 0 then ttl else s1.config.default_ttl_ms
          metadata := md }
      (.ok, { s1 with entries := s1.entries ++ [e] })

/-- Worker for `tcl_entry_clear_expired`: index `i` walks the live slots; an
expired slot is freed and the last live slot swapped into its place without
advancing `i`.  The fuel argument dominates the loop measure
`(count - i) + count`, so it is never exhausted when instantiated by
`tcl_entry_clear_expired`. -/
def clear_expired_go (now : Nat) : Nat → Nat → List tcl_entry → List tcl_entry × Nat
  | 0, _, l => (l, 0)
  | fuel + 1, i, l =>
    if h : i < l.length then
      let e := l.get ⟨i, h⟩
      if usub64 now e.timestamp > e.ttl then
        let res := clear_expired_go now fuel i (remove_swap i l)
        (res.1, res.2 + 1)
      else clear_expired_go now fuel (i + 1) l
    else (l, 0)

/-- Embeds `tcl_entry_clear_expired` of tcl_entry_manager.c; the removal
count increments `stats.evictions`. -/
def tcl_entry_clear_expired (now : Nat) (s : tcl_state_t) :
    tcl_status × tcl_state_t :=
  let res := clear_expired_go now (2 * s.entries.length + 1) 0 s.entries
  (.ok,
    { s with
      entries := res.1
      stats := { s.stats with evictions := s.stats.evictions + res.2 } })

/-! ## Operation sequences over the cache -/

/-- One externally invocable cache operation.  `rnd` supplies the `rand()`
stream consumed by the random eviction policy. -/
inductive tcl_op where
  | set (now : Nat) (source_text : List Nat)
      (source_lang target_lang translation : String)
      (metadata : Option tcl_metadata) (ttl : Nat) (rnd : Nat → Nat)
  | add (now : Nat) (e : tcl_entry) (rnd : Nat → Nat)
  | get (now : Nat) (source_text : List Nat) (source_lang target_lang : String)
  | evict (count : Nat) (rnd : Nat → Nat)
  | clear_expired (now : Nat)

def tcl_step (s : tcl_state_t) : tcl_op → tcl_state_t
  | .set now st sl tl tr md ttl rnd => (tcl_set now st sl tl tr md ttl rnd s).2
  | .add now e rnd => (tcl_entry_add now e rnd s).2
  | .get now st sl tl => (tcl_get now st sl tl s).2
  | .evict count rnd => (tcl_entry_evict count rnd s).2
  | .clear_expired now => (tcl_entry_clear_expired now s).2

def tcl_run (s : tcl_state_t) (ops : List tcl_op) : tcl_state_t :=
  ops.foldl tcl_step s

/-! ## Multi-level cache metrics (translation_cache_layer_additional.c) -/

/-- Per-tier metrics block (`tcl_metrics_t` of translation_cache_layer.h);
the response-time average is modelled over `ℚ`. -/
structure tcl_metrics where
  hits : Nat
  misses : Nat
  evictions : Nat
  avg_response_time : ℚ
  current_size : Nat
  peak_size : Nat
  deriving DecidableEq, Repr

/-- Embeds the metric-combining body of `tcl_get_metrics` of
translation_cache_layer_additional.c, applied to the three per-tier metric
blocks of the multi-level cache. -/
def tcl_get_metrics (memory redis persistent : tcl_metrics) : tcl_metrics :=
  let hits := memory.hits + redis.hits + persistent.hits
  let misses := memory.misses + redis.misses + persistent.misses
  let total_requests := hits + misses
  { hits := hits
    misses := misses
    evictions := memory.evictions + redis.evictions + persistent.evictions
    current_size := memory.current_size + redis.current_size + persistent.current_size
    peak_size := memory.peak_size + redis.peak_size + persistent.peak_size
    avg_response_time :=
      if total_requests > 0 then
        (memory.avg_response_time + redis.avg_response_time +
          persistent.avg_response_time) / 3
      else 0 }

/-- The aggregate average response time the specification requires: each
tier's average weighted by that tier's request count (hits + misses). -/
def spec_weighted_avg_response_time (memory redis persistent : tcl_metrics) : ℚ :=
  let w : tcl_metrics → Nat := fun t => t.hits + t.misses
  let total := w memory + w redis + w persistent
  if total > 0 then
    (memory.avg_response_time * (w memory : ℚ) +
      redis.avg_response_time * (w redis : ℚ) +
      persistent.avg_response_time * (w persistent : ℚ)) / (total : ℚ)
  else 0

/-! ## Redis schema migration (tcl_redis_schema.c) -/

def TCL_REDIS_SCHEMA_VERSION : Nat := 1

/-- The Redis reply value relevant to `tcl_redis_schema_migrate`: the reply
to `GET <meta>version`. -/
inductive tcl_redis_reply_val where
  | str (s : String)
  | int (n : Int)
  | other
  deriving DecidableEq, Repr

/-- Model of C `atoi` on a character list: skip leading whitespace, read an
optional sign, then consume decimal digits. -/
def c_atoi_digits : List Char → Int → Int
  | [], acc => acc
  | c :: rest, acc =>
    if 48 ≤ c.toNat ∧ c.toNat ≤ 57 then
      c_atoi_digits rest (acc * 10 + ((c.toNat : Int) - 48))
    else acc

def c_atoi (s : List Char) : Int :=
  let trimmed := s.dropWhile (fun c => c_isspace c.toNat)
  match trimmed with
  | c :: rest =>
    if c = '-' then - c_atoi_digits rest 0
    else if c = '+' then c_atoi_digits rest 0
    else c_atoi_digits trimmed 0
  | [] => 0

/-- Conversion of a C `int` to `uint32_t`, as in
`uint32_t current_version = atoi(...)`. -/
def nat_of_int32 (i : Int) : Nat := (i % 2 ^ 32).toNat

/-- A Redis command issued by the migration routine.  Only the writes matter
to the theorems; the initial `GET <meta>version` is represented by the
`reply` input below. -/
inductive redis_cmd where
  | sadd_schemas
  | set_version (v : Nat)
  deriving DecidableEq, Repr

/-- Embeds `tcl_redis_schema_migrate` of tcl_redis_schema.c on the path
where the connection, the `GET` and its response all succeed and `reply` is
the parsed reply (the version read).  A non-string reply leaves
`current_version` at 0.  Returns the final status together with the write
commands issued. -/
def tcl_redis_schema_migrate (reply : Option tcl_redis_reply_val) :
    tcl_status × List redis_cmd :=
  let current_version : Nat :=
    match reply with
    | some (.str s) => nat_of_int32 (c_atoi s.toList)
    | _ => 0
  if current_version < TCL_REDIS_SCHEMA_VERSION then
    let cmds := if current_version < 1 then [redis_cmd.sadd_schemas] else []
    (.ok, cmds ++ [redis_cmd.set_version TCL_REDIS_SCHEMA_VERSION])
  else (.ok, [])

/-! ## Durable storage batch writes (tcl_storage.c) -/

/-- The entry shape written by `tcl_storage_save_batch` (the `tcl_entry_t`
of translation_cache_layer.h, key/value variant); only the pieces that
determine the write trace are modelled. -/
structure storage_entry where
  key : String
  value : String
  timestamp : Nat
  ttl : Nat
  flags : Nat
  deriving DecidableEq, Repr

/-- One file-system effect of the storage layer. -/
inductive file_op where
  | fopen (path : String) (mode : String)
  | fwrite (bytes : Nat)
  | fclose
  | frename (src dst : String)
  deriving DecidableEq, Repr

/-- The seven writes `tcl_storage_save_batch` issues per entry: key length,
value length, key bytes, value bytes, timestamp, ttl, flags. -/
def save_batch_entry_ops (e : storage_entry) : List file_op :=
  [.fwrite 4, .fwrite 4, .fwrite e.key.length, .fwrite e.value.length,
   .fwrite 8, .fwrite 4, .fwrite 4]

/-- Embeds `tcl_storage_save_batch` of tcl_storage.c on the path where every
file operation succeeds: the batch path is built from the storage path and
the current time, the file is opened with mode "wb", the header (magic,
version, count) and the entries are written, and the file is closed.
Returns the status and the file-operation trace. -/
def tcl_storage_save_batch (inited : Bool) (storage_path : String) (now : Nat)
    (entries : List storage_entry) : tcl_status × List file_op :=
  if ¬ inited then (.error_not_initialized, [])
  else if entries.isEmpty then (.error_invalid_param, [])
  else
    let batch_path := storage_path ++ "/batch_" ++ toString now ++ ".bin"
    (.ok,
      [file_op.fopen batch_path "wb", .fwrite 4, .fwrite 4, .fwrite 4] ++
        (entries.map save_batch_entry_ops).flatten ++ [.fclose])

/-! ## Language detection, primary detector
(translation_service/src/services/languageDetection.ts)

JS strings are modelled as lists of UTF-16 code units (`List Nat`); the
texts the theorems touch live in the Basic Multilingual Plane, where code
units and code points coincide and `text.length` matches the list length.
Confidence arithmetic is over `ℚ`. -/

inductive lde_error where
  | invalid_input
  | unsupported_language
  | confidence_too_low
  | internal_error
  deriving DecidableEq, Repr

structure lde_result where
  detectedLang : String
  confidence : ℚ
  deriving DecidableEq, Repr

/-- Test of the regex `/[a-zA-Z]/` on a text. -/
def has_latin_char (text : List Nat) : Bool :=
  text.any (fun c => decide ((65 ≤ c ∧ c ≤ 90) ∨ (97 ≤ c ∧ c ≤ 122)))

/-- Test of the regex `/[一-鿿぀-ゟ゠-ヿ가-힯]/`. -/
def has_cjk_char (text : List Nat) : Bool :=
  text.any (fun c => decide ((0x4E00 ≤ c ∧ c ≤ 0x9FFF) ∨ (0x3040 ≤ c ∧ c ≤ 0x309F) ∨
    (0x30A0 ≤ c ∧ c ≤ 0x30FF) ∨ (0xAC00 ≤ c ∧ c ≤ 0xD7AF)))

/-- Embeds `hasMultipleScripts`. -/
def hasMultipleScripts (text : List Nat) : Bool :=
  has_latin_char text && has_cjk_char text

/-- Embeds `matchesExpectedScript`. -/
def matchesExpectedScript (text : List Nat) (detectedLang : String) : Bool :=
  if detectedLang = "jpn" then
    text.any (fun c => decide ((0x3040 ≤ c ∧ c ≤ 0x309F) ∨ (0x30A0 ≤ c ∧ c ≤ 0x30FF)))
  else if detectedLang = "cmn" then
    text.any (fun c => decide (0x4E00 ≤ c ∧ c ≤ 0x9FFF))
  else if detectedLang = "kor" then
    text.any (fun c => decide (0xAC00 ≤ c ∧ c ≤ 0xD7AF))
  else has_latin_char text

/-- Embeds `estimateBaseConfidence` (`MIN_TEXT_LENGTH = 10`,
`VERY_SHORT_TEXT_LENGTH = 5`). -/
def estimateBaseConfidence (text : List Nat) : ℚ :=
  if text.length ≥ 100 then 0.95
  else if text.length ≥ 50 then 0.90
  else if text.length ≥ 20 then 0.85
  else if text.length ≥ 10 then 0.75
  else if text.length ≥ 5 then 0.65
  else 0.60

/-- Embeds `estimateScriptConfidence`. -/
def estimateScriptConfidence (text : List Nat) (detectedLang : String) : ℚ :=
  if hasMultipleScripts text then 0.7
  else if matchesExpectedScript text detectedLang then 1.0
  else 0.8

/-- Embeds `calculateLengthPenalty`. -/
def calculateLengthPenalty (text : List Nat) : ℚ :=
  if text.length < 5 then 0.3
  else if text.length < 10 then 0.2
  else 0

def DEFAULT_MIN_CONFIDENCE : ℚ := 0.5

/-- The threshold actually used: `options.minConfidence || DEFAULT`, with the
JS `||` treating a supplied 0 as absent. -/
def effective_min_confidence (minConfidence : Option ℚ) : ℚ :=
  match minConfidence with
  | some q => if q = 0 then DEFAULT_MIN_CONFIDENCE else q
  | none => DEFAULT_MIN_CONFIDENCE

/-- Embeds `primaryDetection` of languageDetection.ts.  The external `franc`
call is an oracle: `detectedLang` is its return value for `text` (the value
`"und"` meaning no identification). -/
def primaryDetection (text : List Nat) (detectedLang : String)
    (minConfidence : Option ℚ) : Except lde_error lde_result :=
  let minConf := effective_min_confidence minConfidence
  if detectedLang = "und" then .error .confidence_too_low
  else
    let baseConfidence := estimateBaseConfidence text
    let scriptConfidence := estimateScriptConfidence text detectedLang
    let lengthPenalty := calculateLengthPenalty text
    let finalConfidence := min (baseConfidence * scriptConfidence * (1 - lengthPenalty)) 0.99
    if finalConfidence < minConf then .error .confidence_too_low
    else .ok { detectedLang := detectedLang, confidence := finalConfidence }

/-! ## Language detection, script fallback
(translation_service/src/services/languageDetectionFallback.ts) -/

/-- The eight script classes of the fallback detector's `SCRIPTS` table, in
declaration order. -/
inductive script_kind where
  | latin
  | cyrillic
  | japanese
  | korean
  | chinese
  | arabic
  | devanagari
  | thai
  deriving DecidableEq, Repr

/-- Membership of a code point in each script's regex character class. -/
def script_test (k : script_kind) (c : Nat) : Bool :=
  match k with
  | .latin => decide ((65 ≤ c ∧ c ≤ 90) ∨ (97 ≤ c ∧ c ≤ 122))
  | .cyrillic => decide ((0x410 ≤ c ∧ c ≤ 0x42F) ∨ (0x430 ≤ c ∧ c ≤ 0x44F))
  | .japanese => decide ((0x3040 ≤ c ∧ c ≤ 0x309F) ∨ (0x30A0 ≤ c ∧ c ≤ 0x30FF))
  | .korean => decide ((0xAC00 ≤ c ∧ c ≤ 0xD7AF) ∨ (0x1100 ≤ c ∧ c ≤ 0x11FF))
  | .chinese => decide (0x4E00 ≤ c ∧ c ≤ 0x9FFF)
  | .arabic => decide (0x600 ≤ c ∧ c ≤ 0x6FF)
  | .devanagari => decide (0x900 ≤ c ∧ c ≤ 0x97F)
  | .thai => decide (0xE00 ≤ c ∧ c ≤ 0xE7F)

/-- `Object.entries(SCRIPTS)` order. -/
def scripts_order : List script_kind :=
  [.latin, .cyrillic, .japanese, .korean, .chinese, .arabic, .devanagari, .thai]

/-- The `scriptToLanguage` / in-loop `switch` mapping of the fallback
detector. -/
def script_language (k : script_kind) : String :=
  match k with
  | .latin => "eng"
  | .cyrillic => "rus"
  | .japanese => "jpn"
  | .korean => "kor"
  | .chinese => "cmn"
  | .arabic => "ara"
  | .devanagari => "hin"
  | .thai => "tha"

/-- The JS whitespace class `\s` (also the class trimmed by
`String.prototype.trim`). -/
def js_space (c : Nat) : Bool :=
  decide (c = 9 ∨ c = 10 ∨ c = 11 ∨ c = 12 ∨ c = 13 ∨ c = 32 ∨ c = 0xA0 ∨
    c = 0x1680 ∨ (0x2000 ≤ c ∧ c ≤ 0x200A) ∨ c = 0x2028 ∨ c = 0x2029 ∨
    c = 0x202F ∨ c = 0x205F ∨ c = 0x3000 ∨ c = 0xFEFF)

/-- The JS digit class `\d` (ASCII 0-9 only, also under the `u` flag). -/
def js_digit (c : Nat) : Bool :=
  decide (48 ≤ c ∧ c ≤ 57)

/-- The Unicode punctuation class `\p{P}` of the pre-check regex
`/^[\d\s\p{P}]+$/u`, restricted to the code points any statement below can
reach: the ASCII block and the eight script ranges of the `SCRIPTS` table
(the only punctuation inside those ranges is listed per block).  Values at
unrelated code points are irrelevant to every theorem in this file. -/
def js_punct (c : Nat) : Bool :=
  decide (
    -- ASCII: ! " # % & ' ( ) * , - . / : ; ? @ [ \ ] _ { }
    (33 ≤ c ∧ c ≤ 35) ∨ (37 ≤ c ∧ c ≤ 42) ∨ (44 ≤ c ∧ c ≤ 47) ∨
    c = 58 ∨ c = 59 ∨ c = 63 ∨ c = 64 ∨ (91 ≤ c ∧ c ≤ 93) ∨ c = 95 ∨
    c = 123 ∨ c = 125 ∨
    -- Arabic block
    c = 0x609 ∨ c = 0x60A ∨ c = 0x60C ∨ c = 0x60D ∨ c = 0x61B ∨ c = 0x61D ∨
    c = 0x61E ∨ c = 0x61F ∨ (0x66A ≤ c ∧ c ≤ 0x66D) ∨ c = 0x6D4 ∨
    -- Devanagari block
    c = 0x964 ∨ c = 0x965 ∨ c = 0x970 ∨
    -- Thai block
    c = 0xE4F ∨ c = 0xE5A ∨ c = 0xE5B ∨
    -- Hiragana/Katakana block
    c = 0x30A0 ∨ c = 0x30FB)

/-- One step of `analyzeScripts`'s `stats.set(script, get+1)`: increment the
script's count if present, else append it (JS `Map` preserves first-insertion
order). -/
def bump_stat (stats : List (script_kind × Nat)) (k : script_kind) :
    List (script_kind × Nat) :=
  if stats.any (fun p => p.1 = k) then
    stats.map (fun p => if p.1 = k then (p.1, p.2 + 1) else p)
  else stats ++ [(k, 1)]

/-- Embeds `analyzeScripts`: for every character, every matching script's
count is bumped, scripts tested in `SCRIPTS` declaration order. -/
def analyzeScripts (text : List Nat) : List (script_kind × Nat) :=
  text.foldl
    (fun stats c =>
      scripts_order.foldl (fun st k => if script_test k c then bump_stat st k else st) stats)
    []

/-- The language-selection loop of `detectByScript`: walk the stats map,
updating the language whenever a strictly larger count appears. -/
def detect_lang_loop (stats : List (script_kind × Nat)) : String :=
  (stats.foldl
    (fun acc p => if p.2 > acc.2 then (script_language p.1, p.2) else acc)
    ("und", 0)).1

/-- The dominant-script loop of `calculateConfidence` (initial script is the
empty string, modelled as `none`). -/
def dominant_script_loop (stats : List (script_kind × Nat)) : Option script_kind × Nat :=
  stats.foldl (fun acc p => if p.2 > acc.2 then (some p.1, p.2) else acc) (none, 0)

/-- Embeds `startsWithLatin`, applied to the `lastProcessedText` (which
`detectByScript` has just set to the input, so the text is never empty on
the reachable paths). -/
def startsWithLatin (text : List Nat) : Bool :=
  match text.dropWhile js_space with
  | c :: _ => decide ((65 ≤ c ∧ c ≤ 90) ∨ (97 ≤ c ∧ c ≤ 122))
  | [] => false

/-- Embeds `calculateConfidence` of languageDetectionFallback.ts.
`last_text` stands for `this.lastProcessedText`. -/
def calculateConfidence (stats : List (script_kind × Nat)) (totalChars : Nat)
    (last_text : List Nat) : ℚ :=
  let dom := dominant_script_loop stats
  let scriptPurity : ℚ := (dom.2 : ℚ) / (totalChars : ℚ)
  let lengthFactor : ℚ :=
    if totalChars > 50 then 0.15
    else if totalChars > 20 then 0.08
    else if totalChars > 10 then 0.05
    else 0
  if dom.1 = some .latin ∧ stats.any (fun p => p.1 = .japanese) ∧
      startsWithLatin last_text then
    min 0.9 (scriptPurity + lengthFactor)
  else if totalChars > 30 then min 0.95 (scriptPurity + lengthFactor)
  else min 0.8 (scriptPurity + lengthFactor)

/-- Embeds `detectByScript` of languageDetectionFallback.ts. -/
def detectByScript (text : List Nat) : lde_result :=
  if text.isEmpty || text.all js_space then
    { detectedLang := "eng", confidence := 0.3 }
  else if text.all (fun c => js_digit c || js_space c || js_punct c) then
    { detectedLang := "eng", confidence := 0.3 }
  else
    let stats := analyzeScripts text
    let totalChars := text.length
    let detectedLang := detect_lang_loop stats
    let confidence := calculateConfidence stats totalChars text
    { detectedLang := detectedLang
      confidence := if confidence > 0.3 then confidence else 0.31 }

/-! ## Shared sample data for witnesses -/

/-- The default key-generator configuration of tcl_key_generator.h
(FNV-1a, normalization on, no timestamp suffix). -/
def sample_key_config : tcl_key_config :=
  { method := .fnv1a, seed := 0x1234ABCD, normalize_text := true
    include_timestamp := false }

def sample_entry : tcl_entry :=
  { source_text := [97], source_lang := "en", target_lang := "fr"
    translation := "bonjour", timestamp := 0, ttl := 10
    metadata := { usage_count := 1, last_used := 0, context := none } }

def sample_state : tcl_state_t :=
  { inited := true
    config := { max_entries := 10, default_ttl_ms := 1000 }
    em_config :=
      { policy := .lru, eviction_batch_size := 10, min_free_entries := 50
        auto_extend_ttl := true, ttl_extension_ms := 0 }
    key_config := sample_key_config
    stats := zero_stats
    entries := [sample_entry] }

def sample_key : String := "en:fr:" ++ hex8 (generate_fnv1a_hash [97])

/-! ## C1: expired entries are never returned by tcl_get -/

/-- C1: for every cached entry with TTL τ, a `tcl_get` performed at any time
`≥ timestamp + τ + ε` (ε ≥ 1 ms) returns NotFound: `tcl_get` treats an entry
with `now − timestamp > ttl` as expired and reports
`TCL_STATUS_ERROR_NOT_FOUND` instead of a hit. -/
theorem c1_tcl_get_expired_returns_not_found
    (s : tcl_state_t) (now ε : Nat) (source_text : List Nat)
    (source_lang target_lang key : String) (i : Nat) (e : tcl_entry)
    (hinit : s.inited = true)
    (hsl : source_lang.isEmpty = false) (htl : target_lang.isEmpty = false)
    (hkey : tcl_key_generate s.key_config now source_text source_lang target_lang
      TCL_KEY_MAX_LENGTH = (.ok, some key))
    (hfind : tcl_find_entry s.key_config now key s.entries = some (i, e))
    (hε : 1 ≤ ε)
    (hnow : e.timestamp + e.ttl + ε ≤ now)
    (hbound : now < 2 ^ 64) :
    (tcl_get now source_text source_lang target_lang s).1 = .error_not_found := by
  have hts : e.timestamp ≤ now := by omega
  have hsub : usub64 now e.timestamp = now - e.timestamp := usub64_of_le _ _ hts hbound
  have hexp : usub64 now e.timestamp > e.ttl := by rw [hsub]; omega
  simp only [tcl_get, hinit, hsl, htl, Bool.or_self, Bool.false_eq_true,
    not_false_eq_true, not_true, if_false, hkey, hfind, if_pos hexp]

/-- Witness for C1 at a concrete store: one entry created at time 0 with
TTL 10, looked up at time 12 (ε = 2). -/
theorem c1_witness :
    (tcl_get 12 [97] "en" "fr" sample_state).1 = .error_not_found :=
  c1_tcl_get_expired_returns_not_found sample_state 12 2 [97] "en" "fr"
    sample_key 0 sample_entry rfl rfl rfl (by decide) (by decide)
    (by decide) (by decide) (by norm_num)

/-! ## C10: lazy expiry zeroes the slot but keeps it counted -/

/-- C10: when `tcl_get` hits an expired entry it frees the entry in place
(the slot becomes the zero entry) but does not decrement the entry count or
compact the array, so `tcl_entry_get_count`, `tcl_entry_get_free_space` and
`tcl_entry_get_usage_percent` are unchanged by the lazy expiry. -/
theorem c10_lazy_expiry_frame
    (s : tcl_state_t) (now : Nat) (source_text : List Nat)
    (source_lang target_lang key : String) (i : Nat) (e : tcl_entry)
    (hinit : s.inited = true)
    (hsl : source_lang.isEmpty = false) (htl : target_lang.isEmpty = false)
    (hkey : tcl_key_generate s.key_config now source_text source_lang target_lang
      TCL_KEY_MAX_LENGTH = (.ok, some key))
    (hfind : tcl_find_entry s.key_config now key s.entries = some (i, e))
    (hexp : usub64 now e.timestamp > e.ttl) :
    (tcl_get now source_text source_lang target_lang s).2.entries
        = s.entries.set i zero_entry ∧
    tcl_entry_get_count (tcl_get now source_text source_lang target_lang s).2
        = tcl_entry_get_count s ∧
    tcl_entry_get_free_space (tcl_get now source_text source_lang target_lang s).2
        = tcl_entry_get_free_space s ∧
    tcl_entry_get_usage_percent (tcl_get now source_text source_lang target_lang s).2
        = tcl_entry_get_usage_percent s := by
  simp only [tcl_get, hinit, hsl, htl, Bool.or_self, Bool.false_eq_true,
    not_false_eq_true, not_true, if_false, hkey, hfind, if_pos hexp]
  simp [tcl_entry_get_count, tcl_entry_get_free_space, tcl_entry_get_usage_percent]

/-- Witness for C10 at the same concrete store as C1's scenario. -/
theorem c10_witness :
    (tcl_get 12 [97] "en" "fr" sample_state).2.entries
        = sample_state.entries.set 0 zero_entry ∧
    tcl_entry_get_count (tcl_get 12 [97] "en" "fr" sample_state).2
        = tcl_entry_get_count sample_state ∧
    tcl_entry_get_free_space (tcl_get 12 [97] "en" "fr" sample_state).2
        = tcl_entry_get_free_space sample_state ∧
    tcl_entry_get_usage_percent (tcl_get 12 [97] "en" "fr" sample_state).2
        = tcl_entry_get_usage_percent sample_state :=
  c10_lazy_expiry_frame sample_state 12 [97] "en" "fr"
    sample_key 0 sample_entry rfl rfl rfl rfl rfl (by decide)

/-! ## C3: the aggregate average response time is an unweighted mean -/

/-- C3: at a concrete set of per-tier metrics (memory: 3 requests averaging
1 ms, redis: 1 request averaging 9 ms, persistent: idle), the code's
`tcl_get_metrics` returns the plain arithmetic mean 10/3 of the three
per-tier averages, while the request-count-weighted mean the spec requires
is 3; the two differ, so `avg_response_time` is not the weighted mean. -/
theorem c3_avg_response_time_bug :
    (tcl_get_metrics
      { hits := 3, misses := 0, evictions := 0, avg_response_time := 1,
        current_size := 0, peak_size := 0 }
      { hits := 1, misses := 0, evictions := 0, avg_response_time := 9,
        current_size := 0, peak_size := 0 }
      { hits := 0, misses := 0, evictions := 0, avg_response_time := 0,
        current_size := 0, peak_size := 0 }).avg_response_time = 10 / 3 ∧
    spec_weighted_avg_response_time
      { hits := 3, misses := 0, evictions := 0, avg_response_time := 1,
        current_size := 0, peak_size := 0 }
      { hits := 1, misses := 0, evictions := 0, avg_response_time := 9,
        current_size := 0, peak_size := 0 }
      { hits := 0, misses := 0, evictions := 0, avg_response_time := 0,
        current_size := 0, peak_size := 0 } = 3 ∧
    ((10 : ℚ) / 3 ≠ 3) := by
  refine ⟨?_, ?_, by norm_num⟩
  · simp only [tcl_get_metrics]
    norm_num
  · simp only [spec_weighted_avg_response_time]
    norm_num

/-! ## C6: schema migration does not refuse newer stored versions -/

/-- C6 counterexample: with a stored schema version of 2 (above the code's
`TCL_REDIS_SCHEMA_VERSION = 1`), `tcl_redis_schema_migrate` returns
`TCL_STATUS_OK` and issues no commands — it silently proceeds rather than
surfacing a schema-too-new error (no such error exists in the status
enum). -/
theorem c6_counterexample :
    tcl_redis_schema_migrate (some (.str "2")) = (.ok, []) := by decide

/-- C6 amended: for every stored version strictly above
`TCL_REDIS_SCHEMA_VERSION`, `tcl_redis_schema_migrate` performs no migration
writes and returns `TCL_STATUS_OK` (instead of refusing with a
schema-too-new error, which the status enum does not contain). -/
theorem c6_migrate_amended (stored : String)
    (h : TCL_REDIS_SCHEMA_VERSION < nat_of_int32 (c_atoi stored.toList)) :
    tcl_redis_schema_migrate (some (.str stored)) = (.ok, []) := by
  simp only [tcl_redis_schema_migrate]
  rw [if_neg]
  omega

/-- Witness for C6 at the concrete stored version string "7". -/
theorem c6_witness :
    tcl_redis_schema_migrate (some (.str "7")) = (.ok, []) :=
  c6_migrate_amended "7" (by decide)

/-! ## C7: batch snapshots are written directly, not staged through .tmp -/

def c7_entry : storage_entry :=
  { key := "k", value := "v", timestamp := 1, ttl := 2, flags := 0 }

/-- C7 counterexample: saving a one-entry batch at time 5 under "/data"
opens the final name "/data/batch_5.bin" for writing as its very first file
operation (not a ".tmp" staging name), and the trace contains no rename at
all — so the final batch name does not appear through an atomic rename of a
staging file. -/
theorem c7_counterexample :
    (tcl_storage_save_batch true "/data" 5 [c7_entry]).2.head?
        = some (.fopen "/data/batch_5.bin" "wb") ∧
    ("/data/batch_5.bin".data.reverse.take 4 ≠ ".tmp".data.reverse) ∧
    (tcl_storage_save_batch true "/data" 5 [c7_entry]).2.all
        (fun op => match op with | .frename _ _ => false | _ => true) = true := by
  refine ⟨by decide, by decide, by decide⟩

/-- C7 amended: `tcl_storage_save_batch` writes every batch snapshot by
opening the final `batch_<ms>.bin` path directly with mode "wb"; its
file-operation trace contains no rename and no ".tmp" staging path, so a
crash mid-write can leave a partially written batch file visible under its
final name. -/
theorem c7_save_batch_amended (storage_path : String) (now : Nat)
    (entries : List storage_entry) (hne : entries ≠ []) :
    (tcl_storage_save_batch true storage_path now entries).2.head?
        = some (.fopen (storage_path ++ "/batch_" ++ toString now ++ ".bin") "wb") ∧
    ∀ src dst, file_op.frename src dst
        ∉ (tcl_storage_save_batch true storage_path now entries).2 := by
  have hemp : entries.isEmpty = false := by
    cases entries with
    | nil => exact absurd rfl hne
    | cons a l => rfl
  constructor
  · simp [tcl_storage_save_batch, hemp]
  · intro src dst hmem
    simp only [tcl_storage_save_batch, Bool.not_true, not_true, if_false, hemp,
      Bool.false_eq_true, not_false_eq_true, if_true, if_neg] at hmem
    simp only [List.mem_append, List.mem_cons, List.mem_flatten, List.mem_map] at hmem
    rcases hmem with ((h | h | h | h | h) | ⟨ops, ⟨e, _, hops⟩, hin⟩) | h
    all_goals first
      | exact absurd h (by simp)
      | (subst hops; simp [save_batch_entry_ops] at hin)

/-- Witness for C7 on a concrete two-entry batch. -/
theorem c7_witness :
    (tcl_storage_save_batch true "/store" 9 [c7_entry, c7_entry]).2.head?
        = some (.fopen ("/store" ++ "/batch_" ++ toString 9 ++ ".bin") "wb") ∧
    ∀ src dst, file_op.frename src dst
        ∉ (tcl_storage_save_batch true "/store" 9 [c7_entry, c7_entry]).2 :=
  c7_save_batch_amended "/store" 9 [c7_entry, c7_entry] (by decide)

/-! ## C4: key generation normalizes by deleting whitespace, not
collapsing it -/

theorem normalize_text_go_eq (l : List Nat) : ∀ j,
    normalize_text_go j l
      = ((l.filter (fun b => !c_isspace b)).map c_tolower).take (255 - j) := by
  induction l with
  | nil => intro j; simp [normalize_text_go]
  | cons b rest ih =>
    intro j
    by_cases hj : j < 255
    · by_cases hs : c_isspace b
      · simp [normalize_text_go, hs, hj, ih j]
      · have h255 : 255 - j = (255 - (j + 1)) + 1 := by omega
        simp only [normalize_text_go, if_pos hj, hs, Bool.false_eq_true, if_false,
          List.filter_cons, Bool.not_false, if_true, List.map_cons, h255,
          List.take_succ_cons, ih (j + 1)]
    · have h255 : 255 - j = 0 := by omega
      simp [normalize_text_go, hj, h255]

/-- What `normalize_text` actually computes: delete every whitespace byte,
lower-case the rest, truncate to the first 255 bytes. -/
theorem normalize_text_eq (input : List Nat) :
    normalize_text input
      = ((input.filter (fun b => !c_isspace b)).map c_tolower).take 255 := by
  simpa using normalize_text_go_eq input 0

/-- C4 counterexample: with normalization enabled, the key generated for the
source text "a b" is not the one the claim predicts.  The claim's
normalization (strip, collapse runs of whitespace to one space, lower-case)
leaves "a b" unchanged, but `tcl_key_generate` hashes "ab" — the code
deletes the internal space instead of preserving one — so the produced key
differs from `<sl>:<tl>:<hex8(FNV-1a(claim-normalized text))>`. -/
theorem c4_counterexample :
    (tcl_key_generate sample_key_config 0 [97, 32, 98] "en" "fr"
        TCL_KEY_MAX_LENGTH).2
      ≠ some ("en:fr:" ++ hex8 (generate_fnv1a_hash (claim_normalize [97, 32, 98]))) := by
  decide

/-- C4 amended: with the `normalize_text` configuration bit set,
`tcl_key_generate` hashes the source text with every whitespace byte
removed (not collapsed to a single space), the remainder ASCII-lower-cased
and truncated to 255 bytes; with the bit clear it hashes the text
unmodified; in both cases the key is `<source_lang>:<target_lang>:<hex8>`
of the 32-bit FNV-1a hash (timestamp suffix disabled, key within the buffer
bound). -/
theorem c4_key_generation_amended (cfg : tcl_key_config) (now : Nat)
    (source_text : List Nat) (source_lang target_lang : String)
    (hm : cfg.method = .fnv1a) (hts : cfg.include_timestamp = false)
    (hfit : (source_lang ++ ":" ++ target_lang ++ ":" ++
      hex8 (generate_fnv1a_hash (if cfg.normalize_text then
        ((source_text.filter (fun b => !c_isspace b)).map c_tolower).take 255
      else source_text))).length < TCL_KEY_MAX_LENGTH) :
    tcl_key_generate cfg now source_text source_lang target_lang TCL_KEY_MAX_LENGTH
      = (.ok, some (source_lang ++ ":" ++ target_lang ++ ":" ++
          hex8 (generate_fnv1a_hash (if cfg.normalize_text then
            ((source_text.filter (fun b => !c_isspace b)).map c_tolower).take 255
          else source_text)))) := by
  rw [← normalize_text_eq] at hfit ⊢
  simp only [tcl_key_generate, hm, hts, Bool.false_eq_true, if_false, if_pos hfit]

/-- Witness for C4 at the source text "a b" (normalization enabled) and
"A b" with a normalization-disabled configuration. -/
theorem c4_witness :
    tcl_key_generate sample_key_config 0 [97, 32, 98] "en" "fr" TCL_KEY_MAX_LENGTH
      = (.ok, some ("en:fr:" ++ hex8 (generate_fnv1a_hash (if
          sample_key_config.normalize_text then
            (([97, 32, 98].filter (fun b => !c_isspace b)).map c_tolower).take 255
          else [97, 32, 98])))) :=
  c4_key_generation_amended sample_key_config 0 [97, 32, 98] "en" "fr"
    rfl rfl (by decide)

/-! ## C8: the primary detector's confidence formula -/

/-- C8: whenever the primary detector identifies a language (the franc
oracle returns something other than "und"), any result it reports carries
confidence `min(base · script · (1 − penalty), 0.99)` built from the
stepwise base confidence, the script confidence and the length penalty; and
whenever that value is below the effective minimum confidence the detector
returns the low-confidence error instead. -/
theorem c8_primary_confidence (text : List Nat) (detectedLang : String)
    (minConfidence : Option ℚ) (h : detectedLang ≠ "und") :
    (∀ r, primaryDetection text detectedLang minConfidence = .ok r →
      r.confidence = min (estimateBaseConfidence text *
        estimateScriptConfidence text detectedLang *
        (1 - calculateLengthPenalty text)) 0.99) ∧
    (min (estimateBaseConfidence text * estimateScriptConfidence text detectedLang *
        (1 - calculateLengthPenalty text)) 0.99 < effective_min_confidence minConfidence →
      primaryDetection text detectedLang minConfidence = .error .confidence_too_low) := by
  constructor
  · intro r hr
    simp only [primaryDetection, if_neg h] at hr
    split at hr
    · cases hr
    · simp only [Except.ok.injEq] at hr
      rw [← hr]
  · intro hlt
    simp only [primaryDetection, if_neg h, if_pos hlt]

/-- Witness for C8 at the one-letter text "h": the final confidence
0.6 · 1.0 · 0.7 = 0.42 is below the default threshold 0.5, and the detector
indeed reports the low-confidence error. -/
theorem c8_witness :
    min (estimateBaseConfidence [104] * estimateScriptConfidence [104] "eng" *
      (1 - calculateLengthPenalty [104])) 0.99 < effective_min_confidence none ∧
    primaryDetection [104] "eng" none = .error .confidence_too_low := by
  have h := (c8_primary_confidence [104] "eng" none (by decide)).2
  have hlt : min (estimateBaseConfidence [104] * estimateScriptConfidence [104] "eng" *
      (1 - calculateLengthPenalty [104])) 0.99 < effective_min_confidence none := by
    norm_num [estimateBaseConfidence, estimateScriptConfidence, calculateLengthPenalty,
      effective_min_confidence, DEFAULT_MIN_CONFIDENCE, hasMultipleScripts,
      matchesExpectedScript, has_latin_char, has_cjk_char]
    split <;> norm_num
  exact ⟨hlt, h hlt⟩

/-! ## C9: the script fallback on single-script text -/

theorem script_test_not_space {k : script_kind} {c : Nat}
    (h : script_test k c = true) : js_space c = false := by
  cases k <;>
    (simp only [script_test, decide_eq_true_eq] at h
     simp only [js_space, decide_eq_false_iff_not]
     omega)

theorem script_test_not_digit {k : script_kind} {c : Nat}
    (h : script_test k c = true) : js_digit c = false := by
  cases k <;>
    (simp only [script_test, decide_eq_true_eq] at h
     simp only [js_digit, decide_eq_false_iff_not]
     omega)

theorem js_punct_not_space {c : Nat} (h : js_punct c = true) : js_space c = false := by
  simp only [js_punct, decide_eq_true_eq] at h
  simp only [js_space, decide_eq_false_iff_not]
  omega

theorem js_digit_not_space {c : Nat} (h : js_digit c = true) : js_space c = false := by
  simp only [js_digit, decide_eq_true_eq] at h
  simp only [js_space, decide_eq_false_iff_not]
  omega

/-- The eight script character classes are pairwise disjoint. -/
theorem script_test_unique {k k' : script_kind} {c : Nat}
    (h : script_test k c = true) (h' : script_test k' c = true) : k' = k := by
  cases k <;> cases k' <;>
    first
    | rfl
    | (exfalso
       simp only [script_test, decide_eq_true_eq] at h h'
       omega)

theorem bump_stat_nil (k : script_kind) : bump_stat [] k = [(k, 1)] := rfl

theorem bump_stat_single (k : script_kind) (m : Nat) :
    bump_stat [(k, m)] k = [(k, m + 1)] := by
  simp [bump_stat]

/-- When `c` matches script `k` and no other, the per-character pass over the
`SCRIPTS` table bumps exactly the `k` counter. -/
theorem scripts_fold_eq (c : Nat) (k : script_kind) (hk : script_test k c = true)
    (huniq : ∀ k', script_test k' c = true → k' = k)
    (st : List (script_kind × Nat)) :
    scripts_order.foldl (fun st j => if script_test j c then bump_stat st j else st) st
      = bump_stat st k := by
  have hfalse : ∀ j : script_kind, j ≠ k → script_test j c = false := by
    intro j hj
    cases hcase : script_test j c
    · rfl
    · exact absurd (huniq j hcase) hj
  cases k <;> simp [scripts_order, hk, hfalse]

theorem analyze_scripts_pure_go (k : script_kind) (text : List Nat)
    (hall : ∀ c ∈ text, script_test k c = true) :
    ∀ m, text.foldl
        (fun stats c => scripts_order.foldl
          (fun st j => if script_test j c then bump_stat st j else st) stats)
        [(k, m)]
      = [(k, m + text.length)] := by
  induction text with
  | nil => intro m; simp
  | cons c rest ih =>
    intro m
    have hk := hall c (List.mem_cons_self c rest)
    have huniq : ∀ k', script_test k' c = true → k' = k :=
      fun k' h' => script_test_unique hk h'
    rw [List.foldl_cons, scripts_fold_eq c k hk huniq, bump_stat_single,
      ih (fun d hd => hall d (List.mem_cons_of_mem _ hd)) (m + 1)]
    have harith : m + 1 + rest.length = m + (rest.length + 1) := by omega
    rw [List.length_cons, harith]

/-- On a non-empty text whose characters all match script `k` (and therefore
no other script), `analyzeScripts` produces the single-entry table
`[(k, length)]`. -/
theorem analyze_scripts_pure (k : script_kind) (text : List Nat)
    (hall : ∀ c ∈ text, script_test k c = true) (hne : text ≠ []) :
    analyzeScripts text = [(k, text.length)] := by
  obtain ⟨c0, rest, rfl⟩ : ∃ c0 rest, text = c0 :: rest := by
    cases text with
    | nil => exact absurd rfl hne
    | cons a l => exact ⟨a, l, rfl⟩
  have hk := hall c0 (List.mem_cons_self c0 rest)
  have huniq : ∀ k', script_test k' c0 = true → k' = k :=
    fun k' h' => script_test_unique hk h'
  rw [analyzeScripts, List.foldl_cons, scripts_fold_eq c0 k hk huniq, bump_stat_nil,
    analyze_scripts_pure_go k rest (fun d hd => hall d (List.mem_cons_of_mem _ hd)) 1]
  rw [List.length_cons]
  have harith : 1 + rest.length = rest.length + 1 := by omega
  rw [harith]

theorem detect_lang_loop_single (k : script_kind) (n : Nat) (hn : 0 < n) :
    detect_lang_loop [(k, n)] = script_language k := by
  simp [detect_lang_loop, hn]

/-- C9 counterexample: the single character U+061F (the Arabic question
mark) lies in the Arabic script range U+0600–U+06FF, whose mapped language
is "ara", yet `detectByScript` returns "eng": the character is Unicode
punctuation, so the digits/punctuation pre-check fires first. -/
theorem c9_counterexample :
    script_test .arabic 0x61F = true ∧
    script_language .arabic = "ara" ∧
    (detectByScript [0x61F]).detectedLang = "eng" ∧
    ("eng" : String) ≠ "ara" := by
  refine ⟨by decide, rfl, rfl, by decide⟩

/-- C9 amended: (a) for any non-empty text whose characters all match a
single one of the fallback script classes (the letter classes of the
`SCRIPTS` table) and which is not made up entirely of punctuation (so the
digits/whitespace/punctuation pre-check cannot fire), `detectByScript`
returns the language mapped to that script with confidence ≥ 0.3; (b) text
consisting only of digits and punctuation returns "eng" with confidence
≤ 0.5. -/
theorem c9_fallback_amended :
    (∀ (text : List Nat) (k : script_kind), text ≠ [] →
      (∀ c ∈ text, script_test k c = true) →
      (∃ c ∈ text, js_punct c = false) →
      (detectByScript text).detectedLang = script_language k ∧
      (3 / 10 : ℚ) ≤ (detectByScript text).confidence) ∧
    (∀ text : List Nat, text ≠ [] →
      (∀ c ∈ text, js_digit c = true ∨ js_punct c = true) →
      (detectByScript text).detectedLang = "eng" ∧
      (detectByScript text).confidence ≤ 1 / 2) := by
  constructor
  · intro text k hne hall hnp
    obtain ⟨c1, hc1mem, hc1p⟩ := hnp
    have hk1 := hall c1 hc1mem
    have hs1 : js_space c1 = false := script_test_not_space hk1
    have hd1 : js_digit c1 = false := script_test_not_digit hk1
    have hemp : text.isEmpty = false := by
      cases text with
      | nil => exact absurd rfl hne
      | cons a l => rfl
    have hallspace : text.all js_space = false := by
      refine Bool.eq_false_iff.mpr fun h => ?_
      have h2 := List.all_eq_true.mp h c1 hc1mem
      rw [hs1] at h2
      cases h2
    have hguard2 : text.all (fun c => js_digit c || js_space c || js_punct c) = false := by
      refine Bool.eq_false_iff.mpr fun h => ?_
      have h2 := List.all_eq_true.mp h c1 hc1mem
      simp only [hd1, hs1, hc1p, Bool.or_self, Bool.or_false] at h2
      exact Bool.noConfusion h2
    have hstats := analyze_scripts_pure k text hall hne
    have hlen : 0 < text.length := List.length_pos.mpr hne
    simp only [detectByScript, hemp, hallspace, Bool.or_self, Bool.false_eq_true,
      if_false, hguard2, hstats]
    refine ⟨detect_lang_loop_single k text.length hlen, ?_⟩
    split
    · next hgt => norm_num at hgt ⊢; exact hgt.le
    · norm_num
  · intro text hne hall
    obtain ⟨c0, rest, rfl⟩ : ∃ c0 rest, text = c0 :: rest := by
      cases text with
      | nil => exact absurd rfl hne
      | cons a l => exact ⟨a, l, rfl⟩
    have hs0 : js_space c0 = false := by
      rcases hall c0 (List.mem_cons_self c0 rest) with h | h
      · exact js_digit_not_space h
      · exact js_punct_not_space h
    have hallspace : (c0 :: rest).all js_space = false := by
      rw [List.all_cons, hs0, Bool.false_and]
    have hguard2 : (c0 :: rest).all (fun c => js_digit c || js_space c || js_punct c) = true := by
      refine List.all_eq_true.mpr fun c hc => ?_
      rcases hall c hc with h | h
      · simp [h]
      · simp [h]
    simp only [detectByScript, List.isEmpty_cons, hallspace, Bool.or_self,
      Bool.false_eq_true, if_false, hguard2, if_true]
    exact ⟨trivial, by norm_num⟩

/-- Witness for C9: a single Arabic letter (U+0627) yields "ara" with
confidence ≥ 0.3, and the digit text "1" yields "eng" with confidence
≤ 0.5. -/
theorem c9_witness :
    ((detectByScript [0x627]).detectedLang = script_language .arabic ∧
      (3 / 10 : ℚ) ≤ (detectByScript [0x627]).confidence) ∧
    ((detectByScript [49]).detectedLang = "eng" ∧
      (detectByScript [49]).confidence ≤ 1 / 2) :=
  ⟨c9_fallback_amended.1 [0x627] .arabic (by decide) (by decide)
      ⟨0x627, by decide, by decide⟩,
    c9_fallback_amended.2 [49] (by decide) (by decide)⟩

/-! ## C2: capacity under operation sequences -/

theorem remove_swap_length (i : Nat) (l : List tcl_entry) :
    (remove_swap i l).length = l.length - 1 := by
  unfold remove_swap
  split <;> simp

theorem evict_loop_length (p : tcl_eviction_policy) (rnd : Nat → Nat) :
    ∀ (n i : Nat) (l : List tcl_entry),
      (evict_loop p rnd n i l).1.length = l.length - min n l.length := by
  intro n
  induction n with
  | zero => intro i l; simp [evict_loop]
  | succ n ih =>
    intro i l
    by_cases hemp : l.isEmpty
    · have : l = [] := List.isEmpty_iff.mp hemp
      subst this
      simp [evict_loop]
    · have hne : l ≠ [] := fun h => hemp (by simp [h])
      have hlen : 0 < l.length := List.length_pos.mpr hne
      simp only [evict_loop, hemp, Bool.false_eq_true, if_false]
      rw [ih (i + 1) (remove_swap (pick_victim_idx p (rnd i) l) l), remove_swap_length]
      omega

/-- The eviction entry point always succeeds in the model (all four policies
are valid) and removes `min count entry_count` entries, leaving
configuration, entry-manager settings and the initialization flag alone. -/
theorem tcl_entry_evict_spec (count : Nat) (rnd : Nat → Nat) (s : tcl_state_t) :
    (tcl_entry_evict count rnd s).1 = .ok ∧
    (tcl_entry_evict count rnd s).2.config = s.config ∧
    (tcl_entry_evict count rnd s).2.em_config = s.em_config ∧
    (tcl_entry_evict count rnd s).2.inited = s.inited ∧
    (tcl_entry_evict count rnd s).2.key_config = s.key_config ∧
    (tcl_entry_evict count rnd s).2.entries.length
      = s.entries.length - min count s.entries.length := by
  unfold tcl_entry_evict
  split
  · next h => subst h; simp
  · next h =>
    refine ⟨rfl, rfl, rfl, rfl, rfl, ?_⟩
    exact evict_loop_length s.em_config.policy rnd count 0 s.entries

theorem clear_expired_go_length (now : Nat) :
    ∀ (fuel i : Nat) (l : List tcl_entry),
      (clear_expired_go now fuel i l).1.length ≤ l.length := by
  intro fuel
  induction fuel with
  | zero => intro i l; exact le_refl _
  | succ fuel ih =>
    intro i l
    unfold clear_expired_go
    split
    · dsimp only
      split
      · dsimp only
        have h1 := ih i (remove_swap i l)
        have h2 := remove_swap_length i l
        omega
      · exact ih (i + 1) l
    · exact le_refl _

/-- `tcl_get` never changes the number of live entries nor any
configuration. -/
theorem tcl_get_frame (now : Nat) (st : List Nat) (sl tl : String) (s : tcl_state_t) :
    (tcl_get now st sl tl s).2.entries.length = s.entries.length ∧
    (tcl_get now st sl tl s).2.config = s.config ∧
    (tcl_get now st sl tl s).2.em_config = s.em_config ∧
    (tcl_get now st sl tl s).2.inited = s.inited := by
  unfold tcl_get
  repeat' split
  all_goals simp

/-- `tcl_set` keeps the store within `max_entries` (it evicts one victim
when at capacity before appending). -/
theorem tcl_set_spec (now : Nat) (st : List Nat) (sl tl tr : String)
    (md : Option tcl_metadata) (ttl : Nat) (rnd : Nat → Nat) (s : tcl_state_t)
    (hmax1 : 1 ≤ s.config.max_entries)
    (hinv : s.entries.length ≤ s.config.max_entries) :
    (tcl_set now st sl tl tr md ttl rnd s).2.entries.length ≤ s.config.max_entries ∧
    (tcl_set now st sl tl tr md ttl rnd s).2.config = s.config ∧
    (tcl_set now st sl tl tr md ttl rnd s).2.em_config = s.em_config ∧
    (tcl_set now st sl tl tr md ttl rnd s).2.inited = s.inited := by
  simp only [tcl_set, tcl_evict_entries]
  split
  · exact ⟨hinv, rfl, rfl, rfl⟩
  split
  · exact ⟨hinv, rfl, rfl, rfl⟩
  by_cases hfull : s.entries.length ≥ s.config.max_entries
  · simp only [if_pos hfull]
    have hev := tcl_entry_evict_spec 1 rnd s
    rw [if_neg (by simp [hev.1])]
    refine ⟨?_, hev.2.1, hev.2.2.1, hev.2.2.2.1⟩
    simp only [List.length_append, List.length_cons, List.length_nil,
      hev.2.2.2.2.2]
    omega
  · simp only [if_neg hfull]
    rw [if_neg (by simp)]
    refine ⟨?_, rfl, rfl, rfl⟩
    simp only [List.length_append, List.length_cons, List.length_nil]
    omega

/-- `tcl_entry_add` keeps the store within `max_entries` provided the
eviction batch size is at least one. -/
theorem tcl_entry_add_spec (now : Nat) (e : tcl_entry) (rnd : Nat → Nat)
    (s : tcl_state_t)
    (hmax1 : 1 ≤ s.config.max_entries) (hmax32 : s.config.max_entries < 2 ^ 32)
    (hb : 1 ≤ s.em_config.eviction_batch_size)
    (hinv : s.entries.length ≤ s.config.max_entries) :
    (tcl_entry_add now e rnd s).2.entries.length ≤ s.config.max_entries ∧
    (tcl_entry_add now e rnd s).2.config = s.config ∧
    (tcl_entry_add now e rnd s).2.em_config = s.em_config ∧
    (tcl_entry_add now e rnd s).2.inited = s.inited := by
  simp only [tcl_entry_add]
  split
  · exact ⟨hinv, rfl, rfl, rfl⟩
  have hfree : tcl_entry_get_free_space s
      = s.config.max_entries - s.entries.length := by
    unfold tcl_entry_get_free_space
    exact usub32_of_le _ _ hinv hmax32
  by_cases hzero : tcl_entry_get_free_space s < 1
  · simp only [if_pos hzero]
    have hlenmax : s.entries.length = s.config.max_entries := by
      rw [hfree] at hzero; omega
    have hev := tcl_entry_evict_spec s.em_config.eviction_batch_size rnd s
    rw [if_neg (by simp [hev.1])]
    refine ⟨?_, hev.2.1, hev.2.2.1, hev.2.2.2.1⟩
    simp only [List.length_append, List.length_cons, List.length_nil,
      hev.2.2.2.2.2]
    omega
  · simp only [if_neg hzero]
    rw [if_neg (by simp)]
    refine ⟨?_, rfl, rfl, rfl⟩
    rw [hfree] at hzero
    simp only [List.length_append, List.length_cons, List.length_nil]
    omega

/-- One step of any operation preserves the capacity invariant together with
the configuration blocks, provided `eviction_batch_size ≥ 1`. -/
theorem tcl_step_spec (s : tcl_state_t) (op : tcl_op)
    (hmax1 : 1 ≤ s.config.max_entries) (hmax32 : s.config.max_entries < 2 ^ 32)
    (hb : 1 ≤ s.em_config.eviction_batch_size)
    (hinv : s.entries.length ≤ s.config.max_entries) :
    (tcl_step s op).entries.length ≤ (tcl_step s op).config.max_entries ∧
    (tcl_step s op).config = s.config ∧
    (tcl_step s op).em_config = s.em_config := by
  cases op with
  | set now st sl tl tr md ttl rnd =>
    have h := tcl_set_spec now st sl tl tr md ttl rnd s hmax1 hinv
    exact ⟨by rw [tcl_step, h.2.1]; exact h.1, h.2.1, h.2.2.1⟩
  | add now e rnd =>
    have h := tcl_entry_add_spec now e rnd s hmax1 hmax32 hb hinv
    exact ⟨by rw [tcl_step, h.2.1]; exact h.1, h.2.1, h.2.2.1⟩
  | get now st sl tl =>
    have h := tcl_get_frame now st sl tl s
    exact ⟨by rw [tcl_step, h.2.1, h.1]; exact hinv, h.2.1, h.2.2.1⟩
  | evict count rnd =>
    have h := tcl_entry_evict_spec count rnd s
    refine ⟨?_, h.2.1, h.2.2.1⟩
    rw [tcl_step, h.2.1, h.2.2.2.2.2]
    omega
  | clear_expired now =>
    refine ⟨?_, rfl, rfl⟩
    have h := clear_expired_go_length now (2 * s.entries.length + 1) 0 s.entries
    simp only [tcl_step, tcl_entry_clear_expired]
    omega

theorem tcl_run_capacity (ops : List tcl_op) :
    ∀ s : tcl_state_t, 1 ≤ s.config.max_entries → s.config.max_entries < 2 ^ 32 →
      1 ≤ s.em_config.eviction_batch_size →
      s.entries.length ≤ s.config.max_entries →
      (tcl_run s ops).entries.length ≤ (tcl_run s ops).config.max_entries ∧
      (tcl_run s ops).config = s.config ∧
      (tcl_run s ops).em_config = s.em_config := by
  induction ops with
  | nil => intro s _ _ _ hinv; exact ⟨hinv, rfl, rfl⟩
  | cons op rest ih =>
    intro s h1 h32 hb hinv
    have hstep := tcl_step_spec s op h1 h32 hb hinv
    have hrec := ih (tcl_step s op)
      (by rw [hstep.2.1]; exact h1) (by rw [hstep.2.1]; exact h32)
      (by rw [hstep.2.2]; exact hb) hstep.1
    refine ⟨hrec.1, ?_, ?_⟩
    · rw [tcl_run, List.foldl_cons, ← tcl_run, hrec.2.1, hstep.2.1]
    · rw [tcl_run, List.foldl_cons, ← tcl_run, hrec.2.2, hstep.2.2]

/-- C2 counterexample: with `max_entries = 1` and `eviction_batch_size = 0`,
two `tcl_entry_add` calls leave 2 entries in the store — the second add
finds no free slot, "evicts" a batch of zero entries, and inserts anyway, so
the entry count exceeds the configured maximum. -/
theorem c2_counterexample :
    tcl_entry_get_count
      (tcl_run
        (tcl_init { max_entries := 1, default_ttl_ms := 1000 }
          { policy := .lru, eviction_batch_size := 0, min_free_entries := 0,
            auto_extend_ttl := false, ttl_extension_ms := 0 }
          sample_key_config)
        [.add 1 sample_entry (fun _ => 0), .add 2 sample_entry (fun _ => 0)]) = 2 ∧
    (tcl_init { max_entries := 1, default_ttl_ms := 1000 }
      { policy := .lru, eviction_batch_size := 0, min_free_entries := 0,
        auto_extend_ttl := false, ttl_extension_ms := 0 }
      sample_key_config).config.max_entries = 1 := by
  exact ⟨rfl, rfl⟩

/-- C2 amended: for every configuration with `eviction_batch_size ≥ 1`
(and a representable `max_entries`), after any sequence of set / add / get /
evict / clear-expired operations from a freshly initialised cache, the
memory-tier entry count never exceeds the configured `max_entries`.  (With
`eviction_batch_size = 0` the invariant fails, see the counterexample.) -/
theorem c2_capacity_invariant_amended (config : tcl_config)
    (em : tcl_entry_manager_config) (kc : tcl_key_config)
    (hb : 1 ≤ em.eviction_batch_size) (h32 : config.max_entries < 2 ^ 32)
    (ops : List tcl_op) :
    tcl_entry_get_count (tcl_run (tcl_init config em kc) ops)
      ≤ (tcl_run (tcl_init config em kc) ops).config.max_entries := by
  have h1 : 1 ≤ (tcl_init config em kc).config.max_entries := by
    simp only [tcl_init]
    split
    · norm_num [TCL_DEFAULT_MAX_ENTRIES]
    · rename_i h
      omega
  have h2 : (tcl_init config em kc).config.max_entries < 2 ^ 32 := by
    simp only [tcl_init]
    split
    · norm_num [TCL_DEFAULT_MAX_ENTRIES]
    · exact h32
  have h3 : 1 ≤ (tcl_init config em kc).em_config.eviction_batch_size := hb
  have h4 : (tcl_init config em kc).entries.length
      ≤ (tcl_init config em kc).config.max_entries := by
    simp [tcl_init]
  exact (tcl_run_capacity ops (tcl_init config em kc) h1 h2 h3 h4).1

/-- Witness for C2 on a two-slot cache with batch size 1 and three adds. -/
theorem c2_witness :
    tcl_entry_get_count
      (tcl_run
        (tcl_init { max_entries := 2, default_ttl_ms := 50 }
          { policy := .lru, eviction_batch_size := 1, min_free_entries := 0,
            auto_extend_ttl := false, ttl_extension_ms := 0 }
          sample_key_config)
        [.add 1 sample_entry (fun _ => 0), .add 2 sample_entry (fun _ => 0),
         .add 3 sample_entry (fun _ => 0)])
      ≤ (tcl_run
        (tcl_init { max_entries := 2, default_ttl_ms := 50 }
          { policy := .lru, eviction_batch_size := 1, min_free_entries := 0,
            auto_extend_ttl := false, ttl_extension_ms := 0 }
          sample_key_config)
        [.add 1 sample_entry (fun _ => 0), .add 2 sample_entry (fun _ => 0),
         .add 3 sample_entry (fun _ => 0)]).config.max_entries :=
  c2_capacity_invariant_amended { max_entries := 2, default_ttl_ms := 50 }
    { policy := .lru, eviction_batch_size := 1, min_free_entries := 0,
      auto_extend_ttl := false, ttl_extension_ms := 0 }
    sample_key_config (by decide) (by norm_num)
    [.add 1 sample_entry (fun _ => 0), .add 2 sample_entry (fun _ => 0),
     .add 3 sample_entry (fun _ => 0)]

/-! ## C5: LRU eviction -/

/-- The fingerprint of a stored entry as a plain string (empty when key
generation fails), used only to express the spec's lexicographic
tie-break. -/
def entry_key_str (kc : tcl_key_config) (now : Nat) (e : tcl_entry) : String :=
  (entry_key kc now e).getD ""

/-- The strict preference order of the spec's LRU victim rule: smaller
`last_used`, ties broken by smaller `timestamp`, then by lexicographically
smaller key. -/
def spec_lru_better (kc : tcl_key_config) (now : Nat) (a b : tcl_entry) : Bool :=
  decide (a.metadata.last_used < b.metadata.last_used ∨
    (a.metadata.last_used = b.metadata.last_used ∧
      (a.timestamp < b.timestamp ∨
        (a.timestamp = b.timestamp ∧
          entry_key_str kc now a < entry_key_str kc now b))))

def spec_lru_victim_go (kc : tcl_key_config) (now : Nat) :
    List tcl_entry → Nat → Nat → tcl_entry → Nat
  | [], _, bi, _ => bi
  | e :: rest, j, bi, be =>
    if spec_lru_better kc now e be then spec_lru_victim_go kc now rest (j + 1) j e
    else spec_lru_victim_go kc now rest (j + 1) bi be

/-- The index the spec's LRU rule selects as the eviction victim: the entry
minimal in the (last_used, timestamp, key) lexicographic order. -/
def spec_lru_victim_idx (kc : tcl_key_config) (now : Nat) : List tcl_entry → Nat
  | [] => 0
  | e :: rest => spec_lru_victim_go kc now rest 1 0 e

def c5_entry_a : tcl_entry :=
  { source_text := [98], source_lang := "en", target_lang := "fr"
    translation := "x", timestamp := 10, ttl := 50
    metadata := { usage_count := 1, last_used := 5, context := none } }

def c5_entry_b : tcl_entry :=
  { source_text := [97], source_lang := "en", target_lang := "fr"
    translation := "y", timestamp := 3, ttl := 50
    metadata := { usage_count := 1, last_used := 5, context := none } }

def c5_state : tcl_state_t :=
  { sample_state with entries := [c5_entry_a, c5_entry_b] }

/-- C5 counterexample: on a store holding two entries that tie on
`last_used` (5), with the index-0 entry having the larger timestamp (10 vs
3), one LRU eviction step removes the index-0 entry — the first minimal
index, with no tie-break — and keeps exactly the entry the spec's rule
(minimum timestamp on ties) designates as the victim (index 1). -/
theorem c5_counterexample :
    (tcl_entry_evict 1 (fun _ => 0) c5_state).2.entries = [c5_entry_b] ∧
    spec_lru_victim_idx sample_key_config 0 c5_state.entries = 1 ∧
    c5_state.entries.getD 1 zero_entry = c5_entry_b ∧
    c5_entry_b ≠ c5_entry_a := by
  refine ⟨rfl, rfl, rfl, by decide⟩

theorem scan_min_go_keep (f : tcl_entry → Nat) :
    ∀ (l : List tcl_entry) (j bi bv : Nat), (∀ x ∈ l, ¬ f x < bv) →
      scan_min_go f l j bi bv = bi := by
  intro l
  induction l with
  | nil => intro j bi bv _; rfl
  | cons e rest ih =>
    intro j bi bv h
    rw [scan_min_go, if_neg (h e (List.mem_cons_self e rest))]
    exact ih (j + 1) bi bv (fun x hx => h x (List.mem_cons_of_mem e hx))

/-- When the head is strictly below the sentinel and every later entry, the
victim scan selects index 0. -/
theorem scan_min_idx_zero (f : tcl_entry → Nat) (sent : Nat) (e : tcl_entry)
    (rest : List tcl_entry) (hs : f e < sent)
    (hmin : ∀ x ∈ rest, ¬ f x < f e) :
    scan_min_idx f sent (e :: rest) = 0 := by
  rw [scan_min_idx, scan_min_go, if_pos hs]
  exact scan_min_go_keep f rest 1 0 (f e) hmin

theorem getLastD_mem : ∀ (l : List tcl_entry) (d : tcl_entry), l ≠ [] →
    l.getLastD d ∈ l := by
  intro l
  induction l with
  | nil => intro d h; exact absurd rfl h
  | cons a t ih =>
    intro d _
    rw [List.getLastD_cons]
    cases t with
    | nil => simp [List.getLastD]
    | cons b m =>
      exact List.mem_cons_of_mem a (ih a (by simp))

/-- Swap-removal of the head keeps only (copies of) tail entries. -/
theorem remove_swap_zero_mem (e : tcl_entry) (rest : List tcl_entry) :
    ∀ x ∈ remove_swap 0 (e :: rest), x ∈ rest := by
  intro x hx
  unfold remove_swap at hx
  split at hx
  · next h =>
    have hrest : rest ≠ [] := by
      cases rest with
      | nil => simp at h
      | cons b m => exact fun hc => List.noConfusion hc
    rw [List.set_cons_zero] at hx
    have hv : (e :: rest).getLastD zero_entry ∈ rest := by
      rw [List.getLastD_cons]
      exact getLastD_mem rest e hrest
    have hx' := List.dropLast_subset _ hx
    rcases List.mem_cons.mp hx' with rfl | hm
    · exact hv
    · exact hm
  · next h =>
    have hrest : rest = [] := by
      cases rest with
      | nil => rfl
      | cons b m => simp at h
    subst hrest
    simp at hx

theorem remove_swap_subset (i : Nat) (l : List tcl_entry) :
    ∀ x ∈ remove_swap i l, x ∈ l := by
  intro x hx
  unfold remove_swap at hx
  split at hx
  · next h =>
    have hne : l ≠ [] := by
      intro hc; subst hc; simp at h
    have hx' := List.dropLast_subset _ hx
    rcases List.mem_or_eq_of_mem_set hx' with hm | rfl
    · exact hm
    · exact getLastD_mem l zero_entry hne
  · exact List.dropLast_subset _ hx

theorem evict_loop_subset (p : tcl_eviction_policy) (rnd : Nat → Nat) :
    ∀ (n i : Nat) (l : List tcl_entry) (x : tcl_entry),
      x ∈ (evict_loop p rnd n i l).1 → x ∈ l := by
  intro n
  induction n with
  | zero => intro i l x hx; exact hx
  | succ n ih =>
    intro i l x hx
    by_cases hemp : l.isEmpty
    · simpa [evict_loop, hemp] using hx
    · simp only [evict_loop, hemp, Bool.false_eq_true, if_false] at hx
      exact remove_swap_subset _ l x (ih (i + 1) _ x hx)

/-- The entry appended by `tcl_entry_add`: the payload stamped with
insertion time, usage count one and last-used time. -/
def mk_added (t : Nat) (e : tcl_entry) : tcl_entry :=
  { e with timestamp := t
           metadata := { e.metadata with usage_count := 1, last_used := t } }

theorem mk_added_lu (t : Nat) (e : tcl_entry) :
    (mk_added t e).metadata.last_used = t := rfl

theorem zipWith_mk_added_lu :
    ∀ (ts : List Nat) (es : List tcl_entry) (x : tcl_entry),
      x ∈ List.zipWith mk_added ts es → x.metadata.last_used ∈ ts := by
  intro ts
  induction ts with
  | nil => intro es x hx; simp at hx
  | cons t ts ih =>
    intro es x hx
    cases es with
    | nil => simp at hx
    | cons e es =>
      rw [List.zipWith_cons_cons] at hx
      rcases List.mem_cons.mp hx with rfl | hm
      · exact List.mem_cons_self t ts
      · exact List.mem_cons_of_mem t (ih es x hm)

/-- A batch of LRU eviction steps on a store whose head has the strictly
smallest `last_used` removes that head first, and nothing it keeps has the
head's `last_used` value. -/
theorem evict_lru_first_step (rnd : Nat → Nat) (b : Nat) (hb : 1 ≤ b)
    (e : tcl_entry) (rest : List tcl_entry)
    (hsent : e.metadata.last_used < UINT64_MAX)
    (hmin : ∀ x ∈ rest, e.metadata.last_used < x.metadata.last_used) :
    ∀ x ∈ (evict_loop .lru rnd b 0 (e :: rest)).1,
      e.metadata.last_used < x.metadata.last_used := by
  obtain ⟨b', rfl⟩ : ∃ b', b = b' + 1 := ⟨b - 1, by omega⟩
  have hpick : pick_victim_idx .lru (rnd 0) (e :: rest) = 0 := by
    unfold pick_victim_idx
    exact scan_min_idx_zero _ _ e rest hsent
      (fun x hx => by have := hmin x hx; omega)
  intro x hx
  simp only [evict_loop, List.isEmpty_cons, Bool.false_eq_true, if_false,
    hpick] at hx
  have hx1 : x ∈ remove_swap 0 (e :: rest) :=
    evict_loop_subset .lru rnd b' 1 (remove_swap 0 (e :: rest)) x hx
  exact hmin x (remove_swap_zero_mem e rest x hx1)

/-- A sequence of `tcl_entry_add` operations that fits in the free space
fills the store without evicting: the final entries are the old ones
followed by the stamped payloads. -/
theorem tcl_run_adds_fill (rnd : Nat → Nat) :
    ∀ (ts : List Nat) (es : List tcl_entry) (s : tcl_state_t),
      s.inited = true → s.config.max_entries < 2 ^ 32 →
      s.entries.length + ts.length ≤ s.config.max_entries →
      ts.length ≤ es.length →
      tcl_run s (List.zipWith (fun t e => tcl_op.add t e rnd) ts es)
        = { s with entries := s.entries ++ List.zipWith mk_added ts es } := by
  intro ts
  induction ts with
  | nil =>
    intro es s _ _ _ _
    simp [tcl_run]
  | cons t ts ih =>
    intro es s hinit h32 hfit hlen
    cases es with
    | nil => simp at hlen
    | cons e es =>
      rw [List.zipWith_cons_cons, tcl_run, List.foldl_cons]
      have hadd : tcl_step s (.add t e rnd)
          = { s with entries := s.entries ++ [mk_added t e] } := by
        show (tcl_entry_add t e rnd s).2 = _
        have hlt : s.entries.length < s.config.max_entries := by
          simp only [List.length_cons] at hfit
          omega
        have hnzero : ¬ tcl_entry_get_free_space s < 1 := by
          unfold tcl_entry_get_free_space
          rw [usub32_of_le _ _ (by omega) h32]
          omega
        simp only [tcl_entry_add]
        split
        · next h => exact absurd hinit (by simpa using h)
        simp only [if_neg hnzero]
        rw [if_neg (by simp)]
        rfl
      rw [← tcl_run, hadd]
      rw [ih es { s with entries := s.entries ++ [mk_added t e] } hinit h32
        (by simp at hfit ⊢; omega) (by simp at hlen ⊢; omega)]
      simp [List.append_assoc]

theorem tcl_run_append (s : tcl_state_t) (a b : List tcl_op) :
    tcl_run s (a ++ b) = tcl_run (tcl_run s a) b := by
  simp [tcl_run]

/-- Adding to a full store (batch size nonzero) evicts a policy batch and
appends the stamped payload. -/
theorem tcl_entry_add_full (now : Nat) (e : tcl_entry) (rnd : Nat → Nat)
    (s : tcl_state_t) (hin : s.inited = true)
    (hfull : s.entries.length = s.config.max_entries)
    (h32 : s.config.max_entries < 2 ^ 32)
    (hb : s.em_config.eviction_batch_size ≠ 0) :
    (tcl_entry_add now e rnd s).2.entries
      = (evict_loop s.em_config.policy rnd s.em_config.eviction_batch_size 0
          s.entries).1 ++ [mk_added now e] := by
  have hzero : tcl_entry_get_free_space s < 1 := by
    unfold tcl_entry_get_free_space
    rw [hfull, usub32_of_le _ _ (le_refl _) h32]
    omega
  have hev := tcl_entry_evict_spec s.em_config.eviction_batch_size rnd s
  have hevents : (tcl_entry_evict s.em_config.eviction_batch_size rnd s).2.entries
      = (evict_loop s.em_config.policy rnd s.em_config.eviction_batch_size 0
          s.entries).1 := by
    simp only [tcl_entry_evict]
    rw [if_neg hb]
  simp only [tcl_entry_add]
  split
  · next h => exact absurd hin (by simpa using h)
  rw [if_neg (by simp [hev.1])]
  show (tcl_entry_evict s.em_config.eviction_batch_size rnd s).2.entries
      ++ [mk_added now e] = _
  rw [hevents]

/-- C5 amended: each LRU eviction step removes the first (lowest-index)
entry attaining the minimal `last_used`; the code applies no
timestamp/key tie-break (see the counterexample), but the spec's scenario
consequence still holds: inserting `C + 1` entries at strictly increasing
times into a freshly initialised store of capacity `C` (LRU policy, batch
size ≥ 1) leaves no entry carrying the smallest `last_used` — the
first-inserted entry has been evicted. -/
theorem c5_lru_eviction_amended (cfg : tcl_config)
    (em : tcl_entry_manager_config) (kc : tcl_key_config) (rnd : Nat → Nat)
    (t0 : Nat) (ts' : List Nat) (tlast : Nat)
    (es : List tcl_entry) (elast : tcl_entry)
    (hpol : em.policy = .lru) (hb : 1 ≤ em.eviction_batch_size)
    (hM : 1 ≤ cfg.max_entries) (hM32 : cfg.max_entries < 2 ^ 32)
    (hlen : (t0 :: ts').length = cfg.max_entries)
    (hlen2 : es.length = (t0 :: ts').length)
    (hchain : List.Chain' (· < ·) ((t0 :: ts') ++ [tlast]))
    (hbound : ∀ t ∈ (t0 :: ts') ++ [tlast], t < UINT64_MAX) :
    ∀ x ∈ (tcl_run (tcl_init cfg em kc)
        (List.zipWith (fun t e => tcl_op.add t e rnd) ((t0 :: ts') ++ [tlast])
          (es ++ [elast]))).entries,
      t0 < x.metadata.last_used := by
  have hpair : ∀ t ∈ ts' ++ [tlast], t0 < t := by
    have h1 : List.Chain' (· < ·) (t0 :: (ts' ++ [tlast])) := by
      simpa using hchain
    have h2 := List.chain'_iff_pairwise.mp h1
    exact fun t ht => List.rel_of_pairwise_cons h2 ht
  have hinitmax : (tcl_init cfg em kc).config.max_entries = cfg.max_entries := by
    simp only [tcl_init]
    rw [if_neg (by omega)]
  have hLlen : (List.zipWith mk_added (t0 :: ts') es).length = cfg.max_entries := by
    rw [List.length_zipWith]
    omega
  -- split the operation sequence into the C fill-adds and the final add
  rw [List.zipWith_append _ _ _ _ _ hlen2.symm, tcl_run_append]
  have hfill := tcl_run_adds_fill rnd (t0 :: ts') es (tcl_init cfg em kc)
    rfl (by rw [hinitmax]; exact hM32)
    (by rw [show (tcl_init cfg em kc).entries.length = 0 from rfl, hinitmax]; omega)
    (by omega)
  rw [hfill]
  -- the final add on the (now full) store
  have hent := tcl_entry_add_full tlast elast rnd
    { tcl_init cfg em kc with
      entries := (tcl_init cfg em kc).entries ++ List.zipWith mk_added (t0 :: ts') es }
    rfl
    (by
      show ((tcl_init cfg em kc).entries ++ _).length
        = (tcl_init cfg em kc).config.max_entries
      rw [show (tcl_init cfg em kc).entries = [] from rfl, List.nil_append,
        hLlen, hinitmax])
    (by rw [hinitmax]; exact hM32)
    (by show ¬ em.eviction_batch_size = 0; omega)
  intro x hx
  rw [show tcl_run
      { tcl_init cfg em kc with
        entries := (tcl_init cfg em kc).entries ++ List.zipWith mk_added (t0 :: ts') es }
      (List.zipWith (fun t e => tcl_op.add t e rnd) [tlast] [elast])
    = (tcl_entry_add tlast elast rnd
        { tcl_init cfg em kc with
          entries := (tcl_init cfg em kc).entries
            ++ List.zipWith mk_added (t0 :: ts') es }).2 from rfl] at hx
  rw [hent] at hx
  rw [show ({ tcl_init cfg em kc with
      entries := (tcl_init cfg em kc).entries
        ++ List.zipWith mk_added (t0 :: ts') es } : tcl_state_t).em_config
    = em from rfl, hpol] at hx
  rw [show ({ tcl_init cfg em kc with
      entries := (tcl_init cfg em kc).entries
        ++ List.zipWith mk_added (t0 :: ts') es } : tcl_state_t).entries
    = List.zipWith mk_added (t0 :: ts') es from rfl] at hx
  -- peel the head of the filled store
  obtain ⟨e0, es0, rfl⟩ : ∃ e0 es0, es = e0 :: es0 := by
    cases es with
    | nil => simp at hlen2
    | cons a l => exact ⟨a, l, rfl⟩
  rw [List.zipWith_cons_cons] at hx
  rcases List.mem_append.mp hx with hx1 | hx2
  · have hstep := evict_lru_first_step rnd em.eviction_batch_size hb
      (mk_added t0 e0) (List.zipWith mk_added ts' es0)
      (by rw [mk_added_lu]; exact hbound t0 (by simp))
      (by
        intro y hy
        rw [mk_added_lu]
        exact hpair y.metadata.last_used
          (List.mem_append_left _ (zipWith_mk_added_lu ts' es0 y hy)))
    have := hstep x hx1
    rwa [mk_added_lu] at this
  · have hx2' : x = mk_added tlast elast := by simpa using hx2
    rw [hx2', mk_added_lu]
    exact hpair tlast (List.mem_append_right _ (by simp))

/-- The concrete C5 scenario for the witness: capacity 1, LRU, batch 1,
inserts at times 1 then 2. -/
def c5w_run : tcl_state_t :=
  tcl_run (tcl_init { max_entries := 1, default_ttl_ms := 5 }
    { policy := .lru, eviction_batch_size := 1, min_free_entries := 0,
      auto_extend_ttl := false, ttl_extension_ms := 0 } sample_key_config)
    (List.zipWith (fun t e => tcl_op.add t e (fun _ => 0)) ([1] ++ [2])
      ([sample_entry] ++ [sample_entry]))

/-- Witness for C5: after inserting 2 entries at strictly increasing times
into a capacity-1 LRU store, the surviving entry was inserted after time 1,
so the first (smallest `last_used`) entry is gone. -/
theorem c5_witness :
    1 < (c5w_run.entries.headD zero_entry).metadata.last_used :=
  c5_lru_eviction_amended { max_entries := 1, default_ttl_ms := 5 }
    { policy := .lru, eviction_batch_size := 1, min_free_entries := 0,
      auto_extend_ttl := false, ttl_extension_ms := 0 }
    sample_key_config (fun _ => 0) 1 [] 2 [sample_entry] sample_entry
    rfl (by decide) (by decide) (by norm_num) rfl rfl
    (by simp [List.chain'_cons]) (by decide)
    (c5w_run.entries.headD zero_entry) (by decide)

end Tofu
